import Mathlib

/-!
Shallow embedding of the contact-book program (files `instances.py`,
`helpers.py`, `handlers.py`).  Dates are modelled as triples of natural
numbers; Python `date` validity (including the year 1..9999 range the
`date` constructor and `date.replace` enforce), ordering, subtraction
(via proleptic Gregorian ordinals) and `timedelta` addition are embedded
explicitly.  Strings are modelled by Lean `String`/`List Char`; the `re`
and `strptime` character class `\d` (no `re.ASCII` flag) is the Unicode
decimal-digit category `Nd`, embedded through its code-point table.
-/

namespace ContactBook

/-- Starting code points of the decade-aligned runs that make up the
Unicode `Nd` (decimal digit) category in Unicode 14.0, the character
database of CPython 3.11: every `Nd` character sits in exactly one run
`s..s+9` carrying digit values 0..9.  Python `\d` in a `str` pattern
matches exactly these characters, and `int()` converts them by digit
value. -/
def ndStarts : List Nat :=
  [48, 1632, 1776, 1984, 2406, 2534, 2662, 2790, 2918, 3046, 3174, 3302,
   3430, 3558, 3664, 3792, 3872, 4160, 4240, 6112, 6160, 6470, 6608, 6784,
   6800, 6992, 7088, 7232, 7248, 42528, 43216, 43264, 43472, 43504, 43600,
   44016, 65296, 66720, 68912, 69734, 69872, 69942, 70096, 70384, 70736,
   70864, 71248, 71360, 71472, 71904, 72016, 72784, 73040, 73120, 92768,
   92864, 93008, 120782, 120792, 120802, 120812, 120822, 123200, 123632,
   125264, 130032]

/-- The `\d` character class of a Python `str` regex: any Unicode decimal
digit (category `Nd`). -/
def isDig (c : Char) : Bool := ndStarts.any (fun s => s ≤ c.toNat && c.toNat ≤ s + 9)

/-- Decimal value of an `Nd` digit: its offset inside its decade run
(`unicodedata.digit`); 0 for non-digits, which never occur in matched
groups. -/
def digitVal (c : Char) : Nat :=
  ((ndStarts.find? (fun s => s ≤ c.toNat && c.toNat ≤ s + 9)).map
    (fun s => c.toNat - s)).getD 0

/-- Numeric value of a digit string, as Python `int()` on the matched
group (`int()` accepts any `Nd` digits and uses their digit values). -/
def natVal (cs : List Char) : Nat := cs.foldl (fun a c => 10 * a + digitVal c) 0

/-- A calendar date as held by Python `datetime.date`: year, month, day. -/
structure Date where
  year : Nat
  month : Nat
  day : Nat
deriving DecidableEq, Repr

/-- Gregorian leap-year rule, as used by `datetime.date` / `calendar.isleap`. -/
def isLeap (y : Nat) : Prop := (y % 4 = 0 ∧ y % 100 ≠ 0) ∨ y % 400 = 0

instance (y : Nat) : Decidable (isLeap y) := by
  unfold isLeap
  infer_instance

/-- Number of days in a month of a given year (Python `calendar.monthrange`
semantics, used by the `date` constructor to validate the day). -/
def daysInMonth (y m : Nat) : Nat :=
  if m = 2 then (if isLeap y then 29 else 28)
  else if m = 4 ∨ m = 6 ∨ m = 9 ∨ m = 11 then 30
  else 31

/-- Validity of a (year, month, day) triple: exactly the condition under which
the Python `date` constructor (and `date.replace`) succeeds, including the
`MINYEAR = 1` and `MAXYEAR = 9999` bounds on the year. -/
def Date.Valid (d : Date) : Prop :=
  1 ≤ d.year ∧ d.year ≤ 9999 ∧
    1 ≤ d.month ∧ d.month ≤ 12 ∧ 1 ≤ d.day ∧ d.day ≤ daysInMonth d.year d.month

instance (d : Date) : Decidable d.Valid := by
  unfold Date.Valid
  infer_instance

/-- Python `date` comparison: lexicographic on (year, month, day). -/
def Date.le (a b : Date) : Prop :=
  a.year < b.year ∨
    (a.year = b.year ∧ (a.month < b.month ∨ (a.month = b.month ∧ a.day ≤ b.day)))

instance (a b : Date) : Decidable (Date.le a b) := by
  unfold Date.le
  infer_instance

/-- Days before January 1st of year `y`, counted from year 1
(`datetime._days_before_year`). -/
def daysBeforeYear (y : Nat) : Nat :=
  (y - 1) * 365 + (y - 1) / 4 + (y - 1) / 400 - (y - 1) / 100

/-- Days in year `y` strictly before month `m` (`datetime._days_before_month`). -/
def daysBeforeMonth (y m : Nat) : Nat :=
  (match m with
   | 1 => 0 | 2 => 31 | 3 => 59 | 4 => 90 | 5 => 120 | 6 => 151
   | 7 => 181 | 8 => 212 | 9 => 243 | 10 => 273 | 11 => 304 | _ => 334)
  + (if 2 < m ∧ isLeap y then 1 else 0)

/-- Proleptic Gregorian ordinal of a date (`date.toordinal`); differences of
ordinals are exactly Python `(a - b).days`. -/
def toRataDie (d : Date) : Nat :=
  daysBeforeYear d.year + daysBeforeMonth d.year d.month + d.day

/-- Successor day of a valid date; models adding `timedelta(days=1)`. -/
def nextDay (d : Date) : Date :=
  if d.day < daysInMonth d.year d.month then Date.mk d.year d.month (d.day + 1)
  else if d.month < 12 then Date.mk d.year (d.month + 1) 1
  else Date.mk (d.year + 1) 1 1

/-- `d + timedelta(days=n)` for a non-negative day count. -/
def addDays (d : Date) : Nat → Date
  | 0 => d
  | n + 1 => nextDay (addDays d n)

/-- Split a character list at every dot, as the fixed `.` separators of the
`"%d.%m.%Y"` format cut the input into day, month and year groups. -/
def splitOnDot : List Char → List (List Char)
  | [] => [[]]
  | c :: cs =>
    if c = '.' then [] :: splitOnDot cs
    else
      match splitOnDot cs with
      | [] => [[c]]
      | p :: ps => (c :: p) :: ps

/-- Rejoin the groups produced by `splitOnDot` with dots. -/
def joinDots : List (List Char) → List Char
  | [] => []
  | [p] => p
  | p :: ps => p ++ '.' :: joinDots ps

/-- The `%d` group of CPython `_strptime`: regex `3[01]|[12]\d|0[1-9]|[1-9]`,
one or two characters denoting 1..31; the bracketed classes are ASCII
literals while the `\d` alternative admits any Unicode decimal digit. -/
def dayRe : List Char → Bool
  | [c] => 49 ≤ c.toNat && c.toNat ≤ 57
  | [c1, c2] =>
      (c1 = '3' && (c2 = '0' || c2 = '1')) ||
      ((c1 = '1' || c1 = '2') && isDig c2) ||
      (c1 = '0' && 49 ≤ c2.toNat && c2.toNat ≤ 57)
  | _ => false

/-- The `%m` group of CPython `_strptime`: regex `1[0-2]|0[1-9]|[1-9]`,
i.e. one or two digits denoting 1..12. -/
def monthRe : List Char → Bool
  | [c] => 49 ≤ c.toNat && c.toNat ≤ 57
  | [c1, c2] =>
      (c1 = '1' && (c2 = '0' || c2 = '1' || c2 = '2')) ||
      (c1 = '0' && 49 ≤ c2.toNat && c2.toNat ≤ 57)
  | _ => false

/-- The `%Y` group of CPython `_strptime`: regex `\d\d\d\d`, exactly four
Unicode decimal digits. -/
def yearRe (cs : List Char) : Bool := cs.length = 4 && cs.all isDig

/-- `datetime.strptime(s, "%d.%m.%Y").date()`: the format regex must consume
the whole string (strptime rejects unconverted trailing data), and the
`date` constructor then validates the calendar date.  Returns the parsed
date, or `none` where Python raises `ValueError`. -/
def parseBirthdayDate (s : String) : Option Date :=
  match splitOnDot s.data with
  | [ds, ms, ys] =>
    if dayRe ds && monthRe ms && yearRe ys then
      let d := Date.mk (natVal ys) (natVal ms) (natVal ds)
      if d.Valid then some d else none
    else none
  | _ => none

/-- `helpers.validate_birthday`: `strptime` succeeds iff no `ValueError`. -/
def validate_birthday (s : String) : Bool := (parseBirthdayDate s).isSome

/-- `helpers.validate_name`: `str.isalpha()` (modelled over Lean's
alphabetic-character test; non-empty and all alphabetic). -/
def validate_name (s : String) : Bool := s.length ≠ 0 && s.data.all Char.isAlpha

/-- Python `$` in `re.match`: it matches at the end of the string or just
before one newline at the end of the string. -/
def dollarEnd : List Char → Bool
  | [] => true
  | [c] => c = '\n'
  | _ => false

/-- Length of the maximal leading run of ASCII digits. -/
def countLeadingDigits : List Char → Nat
  | [] => 0
  | c :: cs => if isDig c then countLeadingDigits cs + 1 else 0

/-- `helpers.validate_phone_number`:
`bool(re.compile(r'^(?:\+\d\x7b7,15\x7d|0\d\x7b6,14\x7d$').match(s))`.
Compiled form of the regex: after the literal `+` (resp. `0`) the greedy
`\d` repetition can only stop at the maximal digit run, and the final `$`
accepts the end of the string or a single trailing newline. -/
def validate_phone_number (s : String) : Bool :=
  match s.data with
  | [] => false
  | c :: t =>
    if c = '+' then
      decide (7 ≤ countLeadingDigits t) && decide (countLeadingDigits t ≤ 15) &&
        dollarEnd (List.drop (countLeadingDigits t) t)
    else if c = '0' then
      decide (6 ≤ countLeadingDigits t) && decide (countLeadingDigits t ≤ 14) &&
        dollarEnd (List.drop (countLeadingDigits t) t)
    else false

/-- Written from the specification text for comparison: `s` matches the
anchored pattern with nothing before or after — `+` followed by 7 to 15
digits, or `0` followed by 6 to 14 digits, and nothing else. -/
def phoneAnchoredStrict (s : String) : Bool :=
  match s.data with
  | [] => false
  | c :: t =>
    if c = '+' then t.all isDig && decide (7 ≤ t.length) && decide (t.length ≤ 15)
    else if c = '0' then t.all isDig && decide (6 ≤ t.length) && decide (t.length ≤ 14)
    else false

/-- Declarative reading of the Python regex match including the `$`
semantics: some split of the input is `+` (resp. `0`), then 7-15
(resp. 6-14) digits, then either nothing or one final newline. -/
def phoneLenientSpec (s : String) : Prop :=
  ∃ ds rest,
    ((s.data = '+' :: (ds ++ rest) ∧ 7 ≤ ds.length ∧ ds.length ≤ 15) ∨
     (s.data = '0' :: (ds ++ rest) ∧ 6 ≤ ds.length ∧ ds.length ≤ 14)) ∧
    ds.all isDig = true ∧ (rest = [] ∨ rest = ['\n'])

/-- `instances.Record`: a name, the list of phone values (each `Phone`
wrapper holds one string), and an optional parsed birthday date. -/
structure Record where
  name : String
  phones : List String
  birthday : Option Date
deriving DecidableEq, Repr

/-- `Record.__init__`: empty phone list, no birthday. -/
def Record.mkNew (name : String) : Record := Record.mk name [] none

/-- `Record.add_phone`: append a new `Phone` and report success. -/
def Record.add_phone (r : Record) (p : String) : Record × String :=
  (Record.mk r.name (r.phones ++ [p]) r.birthday, "Phone number is set")

/-- `Record.find_phone`: first phone whose value equals the argument. -/
def Record.find_phone (r : Record) (p : String) : Option String :=
  r.phones.find? (fun x => x == p)

/-- Replace the first occurrence of `old` in the list by `nw` (in-place update
of the found `Phone` slot). -/
def replaceFirst : List String → String → String → List String
  | [], _, _ => []
  | x :: xs, old, nw => if x == old then nw :: xs else x :: replaceFirst xs old nw

/-- Remove the first occurrence of `p` (Python `list.remove` on the found
`Phone` object). -/
def removeFirst : List String → String → List String
  | [], _ => []
  | x :: xs, p => if x == p then xs else x :: removeFirst xs p

/-- `Record.edit_phone`: overwrite the value of the found phone slot. -/
def Record.edit_phone (r : Record) (old nw : String) : Record × String :=
  if (r.find_phone old).isSome then
    (Record.mk r.name (replaceFirst r.phones old nw) r.birthday, "Phone number is set")
  else (r, "Phone number not found")

/-- `Record.remove_phone`: drop the found phone from the list. -/
def Record.remove_phone (r : Record) (p : String) : Record × String :=
  if (r.find_phone p).isSome then
    (Record.mk r.name (removeFirst r.phones p) r.birthday, "Phone number is deleted")
  else (r, "Phone number not found")

/-- `Record.add_birthday` (through `Birthday.add_birthday`): refuse when a
birthday is already present; otherwise parse with `strptime`, which raises
`ValueError` (modelled as `.error`) on a malformed string. -/
def Record.add_birthday (r : Record) (s : String) : Except String (Record × String) :=
  match r.birthday with
  | some _ => Except.ok (r, "Birthday already set")
  | none =>
    match parseBirthdayDate s with
    | some d => Except.ok (Record.mk r.name r.phones (some d), "Birthday is set")
    | none => Except.error "ValueError: time data does not match format"

/-- A candidate year is good when `birthday.replace(year=y)` does not raise
(the date is valid) and the candidate is `>= today`. -/
def GoodYear (bm bd : Nat) (today : Date) (y : Nat) : Prop :=
  (Date.mk y bm bd).Valid ∧ Date.le today (Date.mk y bm bd)

instance (bm bd : Nat) (today : Date) (y : Nat) : Decidable (GoodYear bm bd today y) := by
  unfold GoodYear
  infer_instance

/-- The `while True` search of `Record.days_to_birthday`, with explicit fuel:
try `birthday.replace(year=y)`; on `ValueError` (invalid date, including
any year above `MAXYEAR = 9999`) advance the year, otherwise return
`(candidate - today).days` when the candidate is `>= today`, else advance
the year.  Fuel 9 is enough whenever a candidate exists at all, which
holds for `today.year ≤ 9991` (see the termination theorem); when no
candidate exists in years up to 9999 the Python loop never returns, and
the fuelled model yields `none` for every fuel. -/
def daysToBirthdayAux (bm bd : Nat) (today : Date) : Nat → Nat → Option Int
  | 0, _ => none
  | fuel + 1, y =>
    if GoodYear bm bd today y then
      some ((toRataDie (Date.mk y bm bd) : Int) - (toRataDie today : Int))
    else daysToBirthdayAux bm bd today fuel (y + 1)

/-- `Record.days_to_birthday`: `None` without a birthday, otherwise the loop
starting at `today.year`.  `today` (Python `date.today()`) is passed
explicitly. -/
def Record.days_to_birthday (r : Record) (today : Date) : Option Int :=
  match r.birthday with
  | none => none
  | some b => daysToBirthdayAux b.month b.day today 9 today.year

/-- Python dict assignment `data[k] = v`: replace the value at an existing
key in place (keeping its position in insertion order), or append a new
key at the end. -/
def setKey : List (String × Record) → String → Record → List (String × Record)
  | [], k, r => [(k, r)]
  | (k1, r1) :: rest, k, r =>
    if k1 == k then (k, r) :: rest else (k1, r1) :: setKey rest k r

/-- `instances.AddressBook` (a `UserDict`): insertion-ordered mapping from
name to record. -/
structure AddressBook where
  data : List (String × Record)
deriving DecidableEq, Repr

/-- `AddressBook.add_record`: `self.data[record.name.value] = record`. -/
def AddressBook.add_record (book : AddressBook) (r : Record) : AddressBook × String :=
  (AddressBook.mk (setKey book.data r.name r), "Record added")

/-- `AddressBook.find`: `self.data.get(name)`. -/
def AddressBook.find (book : AddressBook) (name : String) : Option Record :=
  (book.data.find? (fun p => p.1 == name)).map (fun p => p.2)

/-- `AddressBook.delete`: remove the key when present. -/
def AddressBook.delete (book : AddressBook) (name : String) : AddressBook × String :=
  if (book.data.find? (fun p => p.1 == name)).isSome then
    (AddressBook.mk (book.data.filter (fun p => !(p.1 == name))), "Record deleted")
  else (book, "Record not found")

/-- Loop body of `AddressBook.upcoming_birthdays`: skip records without a
birthday, keep `(record.name.value, today + timedelta(days_left))` when
`0 <= days_left <= days`. -/
def birthdayEntry (today : Date) (days : Int) (pr : String × Record) :
    Option (String × Date) :=
  match pr.2.days_to_birthday today with
  | none => none
  | some dl =>
    if 0 ≤ dl ∧ dl ≤ days then some (pr.2.name, addDays today dl.toNat) else none

/-- The `upcoming` list before sorting, built in the book's iteration order. -/
def AddressBook.upcomingPre (book : AddressBook) (today : Date) (days : Int) :
    List (String × Date) :=
  book.data.filterMap (birthdayEntry today days)

/-- Stable insertion step for sorting by the date component: the new element
(which precedes the list elements in the pre-sort order) goes before the
first element whose date is `>=` its own. -/
def insertByDate (x : String × Date) : List (String × Date) → List (String × Date)
  | [] => [x]
  | y :: ys => if Date.le x.2 y.2 then x :: y :: ys else y :: insertByDate x ys

/-- Stable ascending sort by the date component, modelling
`upcoming.sort(key=lambda item: item[1])` (Python sorts are stable). -/
def sortByDate : List (String × Date) → List (String × Date)
  | [] => []
  | x :: xs => insertByDate x (sortByDate xs)

/-- `AddressBook.upcoming_birthdays`: filter then stable sort by date. -/
def AddressBook.upcoming_birthdays (book : AddressBook) (today : Date) (days : Int) :
    List (String × Date) :=
  sortByDate (book.upcomingPre today days)

/-- `handlers.add_contact` before the `input_error` decorator: `raise` is
modelled as `.error` carrying the message; on success the (mutated) book
is returned. -/
def add_contact (name phone : String) (book : AddressBook) :
    Except String AddressBook :=
  if validate_name name = false then
    Except.error "Invalid name format. Name should contain only alphabetic characters."
  else if validate_phone_number phone = false then
    Except.error "Invalid phone number format. It should start with '+' followed by 7-15 digits or '0' followed by 6-14 digits."
  else
    match book.find name with
    | none =>
      let pr := (Record.mkNew name).add_phone phone
      if pr.2 ≠ "Phone number is set" then Except.error pr.2
      else Except.ok (AddressBook.mk (setKey book.data pr.1.name pr.1))
    | some r =>
      if (r.find_phone phone).isSome then
        Except.error ("Contact " ++ name ++ " already has this phone number.")
      else
        let pr := r.add_phone phone
        if pr.2 ≠ "Phone number is set" then Except.error pr.2
        else Except.ok (AddressBook.mk (setKey book.data name pr.1))

/-- `handlers.add_contact` as seen by callers: the `input_error` decorator
turns a raised `ValueError` into printing the message and returning `False`,
leaving the book as it was. -/
def add_contact_handled (name phone : String) (book : AddressBook) :
    AddressBook × Bool :=
  match add_contact name phone book with
  | Except.ok b => (b, true)
  | Except.error _ => (book, false)

theorem dateLe_refl (a : Date) : Date.le a a := by
  unfold Date.le
  omega

theorem dateLe_total (a b : Date) : Date.le a b ∨ Date.le b a := by
  unfold Date.le
  omega

theorem dateLe_trans (a b c : Date) (h1 : Date.le a b) (h2 : Date.le b c) : Date.le a c := by
  unfold Date.le at h1 h2 ⊢
  omega

/-- In any eight consecutive years after `y` there is a leap year: the first
multiple of four after `y` is at most four away, and if it is an excluded
century the next multiple of four (four more years on) cannot also be a
multiple of 100. -/
theorem exists_leap_succ (y : Nat) : ∃ k, 1 ≤ k ∧ k ≤ 8 ∧ isLeap (y + k) := by
  unfold isLeap
  by_cases h : (y + (4 - y % 4)) % 100 = 0 ∧ (y + (4 - y % 4)) % 400 ≠ 0
  · exact ⟨4 - y % 4 + 4, by omega, by omega, by omega⟩
  · exact ⟨4 - y % 4, by omega, by omega, by omega⟩

/-- A valid month/day pair other than February 29 is a valid date in every
year of Python's representable range. -/
theorem valid_shift (b : Date) (hv : b.Valid) (hne : ¬(b.month = 2 ∧ b.day = 29))
    (y : Nat) (hy : 1 ≤ y) (hy9 : y ≤ 9999) : (Date.mk y b.month b.day).Valid := by
  obtain ⟨h1, h9, h2, h3, h4, h5⟩ := hv
  refine ⟨hy, hy9, h2, h3, h4, ?_⟩
  unfold daysInMonth at h5 ⊢
  by_cases hm : b.month = 2
  · simp only [hm, if_pos rfl] at h5 ⊢
    have hd : b.day ≠ 29 := fun hc => hne ⟨hm, hc⟩
    split_ifs at h5 ⊢ <;> omega
  · simp only [if_neg hm] at h5 ⊢
    split_ifs at h5 ⊢ <;> omega

/-- February 29 is a valid date in every leap year of Python's range. -/
theorem valid_feb29 (y : Nat) (hy : 1 ≤ y) (hy9 : y ≤ 9999) (hl : isLeap y) :
    (Date.mk y 2 29).Valid := by
  refine ⟨hy, hy9, by norm_num, by norm_num, by norm_num, ?_⟩
  show 29 ≤ daysInMonth y 2
  unfold daysInMonth
  simp [hl]

/-- For every valid birthday there is a good candidate year within eight
years of `today.year`, provided the eight-year window stays inside
Python's year range (`today.year ≤ 9991`). -/
theorem exists_good (b today : Date) (hb : b.Valid) (ht : today.Valid)
    (htop : today.year ≤ 9991) :
    ∃ k, k ≤ 8 ∧ GoodYear b.month b.day today (today.year + k) := by
  by_cases hfeb : b.month = 2 ∧ b.day = 29
  · by_cases h0 : GoodYear b.month b.day today today.year
    · exact ⟨0, by omega, by rwa [Nat.add_zero]⟩
    · obtain ⟨k, hk1, hk8, hl⟩ := exists_leap_succ today.year
      refine ⟨k, hk8, ?_, ?_⟩
      · rw [hfeb.1, hfeb.2]
        exact valid_feb29 _ (by omega) (by omega) hl
      · unfold Date.le
        left
        show today.year < today.year + k
        omega
  · by_cases h0 : Date.le today (Date.mk today.year b.month b.day)
    · exact ⟨0, by omega, by
        rw [Nat.add_zero]
        exact ⟨valid_shift b hb hfeb _ ht.1 (by omega), h0⟩⟩
    · refine ⟨1, by omega, valid_shift b hb hfeb _ (by omega) (by omega), ?_⟩
      unfold Date.le
      left
      show today.year < today.year + 1
      omega

/-- The fuelled year search returns the day difference at the first good
year, provided one exists within the fuel. -/
theorem aux_finds (bm bd : Nat) (today : Date) :
    ∀ fuel y0 k, k < fuel → GoodYear bm bd today (y0 + k) →
      (∀ j, j < k → ¬ GoodYear bm bd today (y0 + j)) →
      daysToBirthdayAux bm bd today fuel y0 =
        some ((toRataDie (Date.mk (y0 + k) bm bd) : Int) - (toRataDie today : Int)) := by
  intro fuel
  induction fuel with
  | zero => intro y0 k hk; omega
  | succ n ih =>
    intro y0 k hk hg hmin
    cases k with
    | zero =>
      rw [Nat.add_zero] at hg
      unfold daysToBirthdayAux
      rw [if_pos hg, Nat.add_zero]
    | succ m =>
      have h0 : ¬ GoodYear bm bd today y0 := by
        have h := hmin 0 (Nat.succ_pos m)
        rwa [Nat.add_zero] at h
      unfold daysToBirthdayAux
      rw [if_neg h0]
      have heq : y0 + (m + 1) = (y0 + 1) + m := by omega
      rw [heq] at hg ⊢
      exact ih (y0 + 1) m (by omega) hg (fun j hj => by
        have h := hmin (j + 1) (by omega)
        rwa [show y0 + (j + 1) = (y0 + 1) + j from by omega] at h)

/-- Master specification of `Record.days_to_birthday` with a birthday set
and `today` at least eight years below Python's year cap: it returns the
ordinal difference at the least good offset `k ≤ 8`. -/
theorem days_to_birthday_spec (r : Record) (today b : Date) (hr : r.birthday = some b)
    (hb : b.Valid) (ht : today.Valid) (htop : today.year ≤ 9991) :
    ∃ k, k ≤ 8 ∧ GoodYear b.month b.day today (today.year + k) ∧
      (∀ j, j < k → ¬ GoodYear b.month b.day today (today.year + j)) ∧
      r.days_to_birthday today =
        some ((toRataDie (Date.mk (today.year + k) b.month b.day) : Int) -
          (toRataDie today : Int)) := by
  obtain ⟨k0, hk8, hg⟩ := exists_good b today hb ht htop
  have hP : ∃ k, GoodYear b.month b.day today (today.year + k) := ⟨k0, hg⟩
  have hle : Nat.find hP ≤ k0 := Nat.find_min' hP hg
  refine ⟨Nat.find hP, by omega, Nat.find_spec hP, fun j hj => Nat.find_min hP hj, ?_⟩
  unfold Record.days_to_birthday
  rw [hr]
  exact aux_finds b.month b.day today 9 today.year (Nat.find hP) (by omega)
    (Nat.find_spec hP) (fun j hj => Nat.find_min hP hj)

/-- C1 (amended): with a birthday set and `today` at least eight years
below Python's year cap (`today.year ≤ 9991`), `days_to_birthday` returns
the day-count from `today` to the smallest candidate date
`(y, birthday.month, birthday.day)` with `y >= today.year` that is a valid
calendar date and `>= today`; for a birthday of 25.12.1990 and today
26.12.2023 it returns the non-negative offset to 25.12.2024; it returns
`none` when no birthday is set.  For later todays with a February 29
birthday no candidate need exist inside Python's year range and the loop
returns nothing (see the counterexample). -/
theorem days_to_birthday_smallest_candidate (r : Record) (today : Date)
    (ht : today.Valid) :
    (r.birthday = none → r.days_to_birthday today = none) ∧
    (today.year ≤ 9991 → ∀ b, r.birthday = some b → b.Valid →
      ∃ y, today.year ≤ y ∧ GoodYear b.month b.day today y ∧
        (∀ z, today.year ≤ z → z < y → ¬ GoodYear b.month b.day today z) ∧
        r.days_to_birthday today =
          some ((toRataDie (Date.mk y b.month b.day) : Int) - (toRataDie today : Int))) ∧
    ((Record.mk "A" [] (some (Date.mk 1990 12 25))).days_to_birthday (Date.mk 2023 12 26) =
      some ((toRataDie (Date.mk 2024 12 25) : Int) - (toRataDie (Date.mk 2023 12 26) : Int)) ∧
     (0 : Int) ≤ (toRataDie (Date.mk 2024 12 25) : Int) - (toRataDie (Date.mk 2023 12 26) : Int)) := by
  refine ⟨?_, ?_, by decide, by decide⟩
  · intro h
    unfold Record.days_to_birthday
    rw [h]
  · intro htop b hr hb
    obtain ⟨k, _, hg, hmin, heq⟩ := days_to_birthday_spec r today b hr hb ht htop
    refine ⟨today.year + k, by omega, hg, ?_, heq⟩
    intro z hz1 hz2
    have h := hmin (z - today.year) (by omega)
    rwa [show today.year + (z - today.year) = z from by omega] at h

/-- C1 counterexample: birthday 29.02.2000 and today 01.01.9997 are both
representable Python dates, yet no candidate `(y, 2, 29)` with
`y ≥ 9997` is a valid date — 9997, 9998 and 9999 are not leap years and
`date.replace` raises `ValueError` for every year above 9999 — so no
smallest candidate exists and the source loop never returns; the fuelled
model yields `none` instead of a day-count. -/
theorem smallest_candidate_absent_counterexample :
    (Date.mk 2000 2 29).Valid ∧ (Date.mk 9997 1 1).Valid ∧
    (Record.mk "C" [] (some (Date.mk 2000 2 29))).days_to_birthday
      (Date.mk 9997 1 1) = none ∧
    ¬ (Date.mk 9997 2 29).Valid ∧ ¬ (Date.mk 9998 2 29).Valid ∧
    ¬ (Date.mk 9999 2 29).Valid ∧ ¬ (Date.mk 10000 2 29).Valid := by
  refine ⟨by decide, by decide, by decide, by decide, by decide, by decide, by decide⟩

/-- Witness for C1 at the 25.12.1990 / 26.12.2023 instance of the spec. -/
theorem days_to_birthday_smallest_candidate_witness :
    ∃ y, (Date.mk 2023 12 26).year ≤ y ∧ GoodYear 12 25 (Date.mk 2023 12 26) y ∧
      (∀ z, (Date.mk 2023 12 26).year ≤ z → z < y →
        ¬ GoodYear 12 25 (Date.mk 2023 12 26) z) ∧
      (Record.mk "A" [] (some (Date.mk 1990 12 25))).days_to_birthday (Date.mk 2023 12 26) =
        some ((toRataDie (Date.mk y 12 25) : Int) - (toRataDie (Date.mk 2023 12 26) : Int)) :=
  (days_to_birthday_smallest_candidate (Record.mk "A" [] (some (Date.mk 1990 12 25)))
    (Date.mk 2023 12 26) (by decide)).2.1 (by decide) (Date.mk 1990 12 25) rfl (by decide)

/-- C2: for a birthday of 29.02.2000 evaluated at 01.03.2023 (2023 is not a
leap year), `days_to_birthday` returns exactly the day-count from 01.03.2023
to 29.02.2024, namely 365 days, skipping 2023 because 29.02.2023 does not
exist. -/
theorem feb29_skips_non_leap_year :
    (Record.mk "B" [] (some (Date.mk 2000 2 29))).days_to_birthday (Date.mk 2023 3 1) =
      some 365 ∧
    (toRataDie (Date.mk 2024 2 29) : Int) - (toRataDie (Date.mk 2023 3 1) : Int) = 365 ∧
    ¬ (Date.mk 2023 2 29).Valid ∧ ¬ isLeap 2023 := by
  refine ⟨by decide, by decide, by decide, by decide⟩

/-- C10 (amended): for `today.year ≤ 9991` — the eight-year candidate
window then stays inside Python's year range — a good candidate year
exists at an offset of at most 8 from `today.year`, so the search (with
fuel covering offsets 0..8) returns a result when a valid birthday is
set.  Beyond that bound the loop can fail to terminate (see the
counterexample): for a February 29 birthday and a late-enough `today`
every later candidate year raises `ValueError` inside the caught
`except`, and the `while True` loop never exits. -/
theorem days_to_birthday_terminates (r : Record) (today b : Date)
    (hr : r.birthday = some b) (hb : b.Valid) (ht : today.Valid)
    (htop : today.year ≤ 9991) :
    (∃ k, k ≤ 8 ∧ GoodYear b.month b.day today (today.year + k)) ∧
    (r.days_to_birthday today).isSome = true := by
  obtain ⟨k, hk, hg, _, heq⟩ := days_to_birthday_spec r today b hr hb ht htop
  exact ⟨⟨k, hk, hg⟩, by rw [heq]; rfl⟩

/-- Witness for C10 at the February 29 birthday instance. -/
theorem days_to_birthday_terminates_witness :
    (∃ k, k ≤ 8 ∧ GoodYear 2 29 (Date.mk 2023 3 1) ((Date.mk 2023 3 1).year + k)) ∧
    ((Record.mk "B" [] (some (Date.mk 2000 2 29))).days_to_birthday
      (Date.mk 2023 3 1)).isSome = true :=
  days_to_birthday_terminates (Record.mk "B" [] (some (Date.mk 2000 2 29)))
    (Date.mk 2023 3 1) (Date.mk 2000 2 29) rfl (by decide) (by decide) (by decide)

/-- No candidate year at all is good for a February 29 birthday once
`today = 01.03.9996`: years up to 9996 are not `>= today`, 9997-9999 lack
February 29, and every year above 9999 is outside Python's range, so the
source's `while True` loop never returns on this input. -/
theorem feb29_no_good_year_9996 (y : Nat) : ¬ GoodYear 2 29 (Date.mk 9996 3 1) y := by
  rintro ⟨hval, hle⟩
  obtain ⟨h1, h9, h2, h3, h4, h5⟩ := hval
  have hgt : 9996 < y := by
    rcases hle with h | ⟨heq, h | ⟨hm, hd⟩⟩
    · exact h
    · have h3 : (3 : Nat) < 2 := h
      omega
    · have h3 : (3 : Nat) = 2 := hm
      omega
  have hnl : ¬ isLeap y := by
    unfold isLeap
    have h9n : y ≤ 9999 := h9
    omega
  have h28 : daysInMonth y 2 = 28 := by
    unfold daysInMonth
    rw [if_pos rfl, if_neg hnl]
  have h29 : 29 ≤ daysInMonth y 2 := h5
  rw [h28] at h29
  omega

/-- C10 counterexample: with birthday 29.02.2000 and today 01.03.9996 —
both representable Python dates — the year search finds no valid candidate
(the fuelled model returns `none`; by the preceding lemma no fuel would
help), i.e. the source loop does not terminate on this input. -/
theorem year_search_divergence_counterexample :
    (Date.mk 2000 2 29).Valid ∧ (Date.mk 9996 3 1).Valid ∧
    (Record.mk "B" [] (some (Date.mk 2000 2 29))).days_to_birthday
      (Date.mk 9996 3 1) = none := by
  refine ⟨by decide, by decide, by decide⟩

theorem insertByDate_perm (x : String × Date) (l : List (String × Date)) :
    List.Perm (insertByDate x l) (x :: l) := by
  induction l with
  | nil => exact List.Perm.refl _
  | cons y ys ih =>
    unfold insertByDate
    split_ifs
    · exact List.Perm.refl _
    · exact List.Perm.trans (List.Perm.cons y ih) (List.Perm.swap x y ys)

theorem sortByDate_perm (l : List (String × Date)) :
    List.Perm (sortByDate l) l := by
  induction l with
  | nil => exact List.Perm.refl _
  | cons x xs ih =>
    exact List.Perm.trans (insertByDate_perm x (sortByDate xs)) (List.Perm.cons x ih)

theorem mem_insertByDate (a x : String × Date) (l : List (String × Date)) :
    a ∈ insertByDate x l ↔ a = x ∨ a ∈ l := by
  rw [(insertByDate_perm x l).mem_iff]
  simp

theorem insertByDate_pairwise (x : String × Date) (l : List (String × Date))
    (h : List.Pairwise (fun a b => Date.le a.2 b.2) l) :
    List.Pairwise (fun a b => Date.le a.2 b.2) (insertByDate x l) := by
  induction l with
  | nil => simp [insertByDate]
  | cons y ys ih =>
    rw [List.pairwise_cons] at h
    unfold insertByDate
    split_ifs with hle
    · rw [List.pairwise_cons]
      refine ⟨?_, List.pairwise_cons.mpr h⟩
      intro a ha
      rcases List.mem_cons.mp ha with ha | ha
      · rw [ha]; exact hle
      · exact dateLe_trans _ _ _ hle (h.1 a ha)
    · rw [List.pairwise_cons]
      refine ⟨?_, ih h.2⟩
      intro a ha
      rcases (mem_insertByDate a x ys).mp ha with ha | ha
      · rw [ha]
        rcases dateLe_total x.2 y.2 with hc | hc
        · exact absurd hc hle
        · exact hc
      · exact h.1 a ha

theorem sortByDate_pairwise (l : List (String × Date)) :
    List.Pairwise (fun a b => Date.le a.2 b.2) (sortByDate l) := by
  induction l with
  | nil => exact List.Pairwise.nil
  | cons x xs ih => exact insertByDate_pairwise x (sortByDate xs) ih

theorem insertByDate_filter_key (x : String × Date) (l : List (String × Date)) (d : Date) :
    (insertByDate x l).filter (fun p => decide (p.2 = d)) =
      if x.2 = d then x :: l.filter (fun p => decide (p.2 = d))
      else l.filter (fun p => decide (p.2 = d)) := by
  induction l with
  | nil =>
    unfold insertByDate
    by_cases hx : x.2 = d <;> simp [hx]
  | cons y ys ih =>
    unfold insertByDate
    by_cases hle : Date.le x.2 y.2
    · rw [if_pos hle]
      by_cases hd : x.2 = d <;> simp [List.filter_cons, hd]
    · rw [if_neg hle]
      by_cases hd : x.2 = d
      · have hy : ¬ y.2 = d := fun hy => hle (by rw [hd, hy]; exact dateLe_refl d)
        simp [List.filter_cons, hy, ih, hd]
      · by_cases hy : y.2 = d <;> simp [List.filter_cons, hy, ih, hd]

theorem sortByDate_filter_key (l : List (String × Date)) (d : Date) :
    (sortByDate l).filter (fun p => decide (p.2 = d)) =
      l.filter (fun p => decide (p.2 = d)) := by
  induction l with
  | nil => rfl
  | cons x xs ih =>
    show (insertByDate x (sortByDate xs)).filter (fun p => decide (p.2 = d)) = _
    rw [insertByDate_filter_key]
    by_cases hx : x.2 = d <;> simp [List.filter, hx, ih]

theorem length_filterMap_eq_countP {α β : Type} (f : α → Option β) (l : List α) :
    (l.filterMap f).length = l.countP (fun a => (f a).isSome) := by
  induction l with
  | nil => rfl
  | cons x xs ih =>
    rw [List.filterMap_cons, List.countP_cons]
    cases hfx : f x <;> simp [hfx, ih]

theorem birthdayEntry_eq_some (today : Date) (days : Int) (pr : String × Record)
    (nm : String) (dt : Date) :
    birthdayEntry today days pr = some (nm, dt) ↔
      pr.2.name = nm ∧ ∃ dl, pr.2.days_to_birthday today = some dl ∧
        0 ≤ dl ∧ dl ≤ days ∧ dt = addDays today dl.toNat := by
  unfold birthdayEntry
  cases h : pr.2.days_to_birthday today with
  | none => simp
  | some dl =>
    show (if 0 ≤ dl ∧ dl ≤ days then some (pr.2.name, addDays today dl.toNat)
        else none) = some (nm, dt) ↔ _
    split_ifs with hc
    · simp only [Option.some.injEq, Prod.mk.injEq]
      constructor
      · rintro ⟨h1, h2⟩
        exact ⟨h1, dl, rfl, hc.1, hc.2, h2.symm⟩
      · rintro ⟨h1, dl2, hdl, _, _, hdt⟩
        subst hdl
        exact ⟨h1, hdt.symm⟩
    · constructor
      · intro hx
        exact absurd hx (by simp)
      · rintro ⟨h1, dl2, hdl, hge, hle, hdt⟩
        have hd2 : dl = dl2 := Option.some.inj hdl
        subst hd2
        exact absurd ⟨hge, hle⟩ hc

/-- C3: an entry `(name, today + offset)` is in `upcoming_birthdays` exactly
for the records whose next-birthday offset lies in the inclusive window
`[0, days]`; there is exactly one entry per qualifying record, and the
empty book gives the empty list. -/
theorem upcoming_birthdays_window (book : AddressBook) (today : Date) (days : Int) :
    (∀ nm dt, (nm, dt) ∈ book.upcoming_birthdays today days ↔
      ∃ pr, pr ∈ book.data ∧ pr.2.name = nm ∧
        ∃ dl, pr.2.days_to_birthday today = some dl ∧ 0 ≤ dl ∧ dl ≤ days ∧
          dt = addDays today dl.toNat) ∧
    (book.upcoming_birthdays today days).length =
      book.data.countP (fun pr =>
        match pr.2.days_to_birthday today with
        | some dl => decide (0 ≤ dl ∧ dl ≤ days)
        | none => false) ∧
    (AddressBook.mk []).upcoming_birthdays today days = [] := by
  refine ⟨?_, ?_, rfl⟩
  · intro nm dt
    rw [AddressBook.upcoming_birthdays, (sortByDate_perm _).mem_iff]
    unfold AddressBook.upcomingPre
    rw [List.mem_filterMap]
    constructor
    · rintro ⟨pr, hmem, heq⟩
      exact ⟨pr, hmem, (birthdayEntry_eq_some today days pr nm dt).mp heq⟩
    · rintro ⟨pr, hmem, hrest⟩
      exact ⟨pr, hmem, (birthdayEntry_eq_some today days pr nm dt).mpr hrest⟩
  · rw [AddressBook.upcoming_birthdays, (sortByDate_perm _).length_eq]
    unfold AddressBook.upcomingPre
    rw [length_filterMap_eq_countP]
    have hfun : (fun pr : String × Record => (birthdayEntry today days pr).isSome) =
        (fun pr : String × Record =>
          match pr.2.days_to_birthday today with
          | some dl => decide (0 ≤ dl ∧ dl ≤ days)
          | none => false) := by
      funext pr
      unfold birthdayEntry
      cases h : pr.2.days_to_birthday today with
      | none => rfl
      | some dl =>
        show (if 0 ≤ dl ∧ dl ≤ days then some (pr.2.name, addDays today dl.toNat)
            else none).isSome = decide (0 ≤ dl ∧ dl ≤ days)
        split_ifs with hc <;> simp [hc]
    rw [hfun]

/-- C4: `upcoming_birthdays` is sorted ascending by the reported date, and
entries with equal dates keep the address book's iteration (insertion)
order: filtering the result by any date gives the same list as filtering
the unsorted, book-ordered list; two contacts both landing on 14.06.2023
come out in insertion order. -/
theorem upcoming_birthdays_sorted_stable (book : AddressBook) (today : Date) (days : Int) :
    List.Pairwise (fun a b => Date.le a.2 b.2) (book.upcoming_birthdays today days) ∧
    (∀ d, (book.upcoming_birthdays today days).filter (fun p => decide (p.2 = d)) =
      (book.upcomingPre today days).filter (fun p => decide (p.2 = d))) ∧
    (AddressBook.mk [("anna", Record.mk "anna" [] (some (Date.mk 1990 6 14))),
        ("bob", Record.mk "bob" [] (some (Date.mk 1985 6 14)))]).upcoming_birthdays
        (Date.mk 2023 6 10) 7 =
      [("anna", Date.mk 2023 6 14), ("bob", Date.mk 2023 6 14)] :=
  ⟨sortByDate_pairwise _, fun d => sortByDate_filter_key _ d, by decide⟩

theorem setKey_find_self (l : List (String × Record)) (k : String) (r : Record) :
    (setKey l k r).find? (fun p => p.1 == k) = some (k, r) := by
  induction l with
  | nil => simp [setKey, List.find?]
  | cons hd tl ih =>
    unfold setKey
    by_cases hk : hd.1 == k
    · rw [if_pos hk]
      simp [List.find?]
    · rw [if_neg hk]
      rw [List.find?]
      simp only [hk]
      exact ih

theorem setKey_find_other (l : List (String × Record)) (k : String) (r : Record)
    (n : String) (hn : n ≠ k) :
    (setKey l k r).find? (fun p => p.1 == n) = l.find? (fun p => p.1 == n) := by
  induction l with
  | nil =>
    have : (k == n) = false := by
      simp only [beq_eq_false_iff_ne, ne_eq]
      exact fun hc => hn hc.symm
    simp [setKey, List.find?, this]
  | cons hd tl ih =>
    unfold setKey
    by_cases hk : hd.1 == k
    · rw [if_pos hk]
      have hkn : (k == n) = false := by
        simp only [beq_eq_false_iff_ne, ne_eq]
        exact fun hc => hn hc.symm
      have hhdn : (hd.1 == n) = false := by
        simp only [beq_eq_false_iff_ne, ne_eq]
        intro hc
        exact hn (by rw [← hc]; exact (beq_iff_eq.mp hk).symm ▸ rfl)
      rw [List.find?, List.find?]
      simp only [hkn, hhdn]
    · rw [if_neg hk]
      rw [List.find?, List.find?]
      by_cases hd1 : hd.1 == n
      · simp only [hd1]
      · simp only [hd1]
        exact ih

theorem mem_setKey (l : List (String × Record)) (k : String) (r : Record)
    (pr : String × Record) (h : pr ∈ setKey l k r) : pr ∈ l ∨ pr = (k, r) := by
  induction l with
  | nil =>
    simp [setKey] at h
    exact Or.inr h
  | cons hd tl ih =>
    unfold setKey at h
    by_cases hk : hd.1 == k
    · rw [if_pos hk] at h
      rcases List.mem_cons.mp h with h | h
      · exact Or.inr h
      · exact Or.inl (List.mem_cons_of_mem hd h)
    · rw [if_neg hk] at h
      rcases List.mem_cons.mp h with h | h
      · exact Or.inl (h ▸ List.mem_cons_self hd tl)
      · rcases ih h with h | h
        · exact Or.inl (List.mem_cons_of_mem hd h)
        · exact Or.inr h

theorem setKey_keys_nodup (l : List (String × Record)) (k : String) (r : Record)
    (h : (l.map Prod.fst).Nodup) : ((setKey l k r).map Prod.fst).Nodup := by
  induction l with
  | nil => simp [setKey]
  | cons hd tl ih =>
    rw [List.map_cons, List.nodup_cons] at h
    unfold setKey
    by_cases hk : hd.1 == k
    · rw [if_pos hk]
      rw [List.map_cons, List.nodup_cons]
      refine ⟨?_, h.2⟩
      intro hc
      exact h.1 ((beq_iff_eq.mp hk) ▸ hc)
    · rw [if_neg hk]
      rw [List.map_cons, List.nodup_cons]
      refine ⟨?_, ih h.2⟩
      intro hc
      rcases List.mem_map.mp hc with ⟨pr, hpr, hpr1⟩
      rcases mem_setKey tl k r pr hpr with hm | hm
      · exact h.1 (List.mem_map.mpr ⟨pr, hm, hpr1⟩)
      · rw [hm] at hpr1
        exact hk (by rw [← hpr1] at *; exact beq_iff_eq.mpr rfl)

/-- C9: `add_record` unconditionally stores the record under its name:
afterwards `find` on that name returns it (silently replacing any previous
record), every other name is unaffected, the status string is always
"Record added", and key uniqueness is preserved. -/
theorem add_record_overwrites (book : AddressBook) (r : Record) :
    (book.add_record r).1.find r.name = some r ∧
    (book.add_record r).2 = "Record added" ∧
    (∀ n, n ≠ r.name → (book.add_record r).1.find n = book.find n) ∧
    ((book.data.map Prod.fst).Nodup → ((book.add_record r).1.data.map Prod.fst).Nodup) := by
  refine ⟨?_, rfl, ?_, ?_⟩
  · unfold AddressBook.add_record AddressBook.find
    rw [setKey_find_self]
    rfl
  · intro n hn
    unfold AddressBook.add_record AddressBook.find
    rw [setKey_find_other book.data r.name r n hn]
  · intro h
    exact setKey_keys_nodup book.data r.name r h

/-- Witness for C9: replacing an existing record and leaving the other key
untouched, at a concrete two-record book. -/
theorem add_record_overwrites_witness :
    ((AddressBook.mk [("anna", Record.mk "anna" ["+1234567"] none),
        ("bob", Record.mk "bob" [] none)]).add_record
        (Record.mk "anna" [] none)).1.find "bob" =
      (AddressBook.mk [("anna", Record.mk "anna" ["+1234567"] none),
        ("bob", Record.mk "bob" [] none)]).find "bob" ∧
    (((AddressBook.mk [("anna", Record.mk "anna" ["+1234567"] none),
        ("bob", Record.mk "bob" [] none)]).add_record
        (Record.mk "anna" [] none)).1.data.map Prod.fst).Nodup :=
  ⟨(add_record_overwrites (AddressBook.mk [("anna", Record.mk "anna" ["+1234567"] none),
      ("bob", Record.mk "bob" [] none)]) (Record.mk "anna" [] none)).2.2.1 "bob" (by decide),
   (add_record_overwrites (AddressBook.mk [("anna", Record.mk "anna" ["+1234567"] none),
      ("bob", Record.mk "bob" [] none)]) (Record.mk "anna" [] none)).2.2.2 (by decide)⟩

/-- C5: with a birthday already set, `add_birthday` returns the
"already set" signal and leaves the record unchanged for any argument
string; with no birthday set and a well-formed date string it sets the
parsed date; no phone operation ever touches the birthday field. -/
theorem birthday_set_once (r : Record) (s p a b : String) :
    (∀ d0, r.birthday = some d0 →
      r.add_birthday s = Except.ok (r, "Birthday already set")) ∧
    (r.birthday = none → ∀ d, parseBirthdayDate s = some d →
      r.add_birthday s =
        Except.ok (Record.mk r.name r.phones (some d), "Birthday is set")) ∧
    (r.add_phone p).1.birthday = r.birthday ∧
    (r.edit_phone a b).1.birthday = r.birthday ∧
    (r.remove_phone p).1.birthday = r.birthday := by
  refine ⟨?_, ?_, rfl, ?_, ?_⟩
  · intro d0 h
    unfold Record.add_birthday
    rw [h]
  · intro h d hd
    unfold Record.add_birthday
    rw [h, hd]
  · unfold Record.edit_phone
    split_ifs <;> rfl
  · unfold Record.remove_phone
    split_ifs <;> rfl

/-- Witness for C5: a second `add_birthday` on a record born 25.12.1990 is
refused and keeps the stored date, and a first `add_birthday` sets it. -/
theorem birthday_set_once_witness :
    (Record.mk "A" [] (some (Date.mk 1990 12 25))).add_birthday "01.01.2000" =
      Except.ok (Record.mk "A" [] (some (Date.mk 1990 12 25)), "Birthday already set") ∧
    (Record.mk "B" [] none).add_birthday "25.12.1990" =
      Except.ok (Record.mk "B" [] (some (Date.mk 1990 12 25)), "Birthday is set") :=
  ⟨(birthday_set_once (Record.mk "A" [] (some (Date.mk 1990 12 25)))
      "01.01.2000" "x" "x" "x").1 (Date.mk 1990 12 25) rfl,
   (birthday_set_once (Record.mk "B" [] none) "25.12.1990" "x" "x" "x").2.1 rfl
      (Date.mk 1990 12 25) (by decide)⟩

theorem find_phone_appended (l : List String) (p : String) :
    (List.find? (fun x => x == p) (l ++ [p])).isSome = true := by
  induction l with
  | nil => simp [List.find?]
  | cons x xs ih =>
    rw [List.cons_append, List.find?]
    by_cases hx : x == p
    · simp [hx]
    · simp only [hx]
      exact ih

/-- C6: after a successful `add_contact` of a name/phone pair, adding the
same phone string to the same contact again is rejected with the
duplicate-phone error and the book (hence the record's phone count) is
unchanged; and `add_contact` preserves the invariant that no record holds
two equal phone strings. -/
theorem duplicate_phone_rejected (name phone : String) (book book1 : AddressBook)
    (h : add_contact name phone book = Except.ok book1) :
    add_contact name phone book1 =
      Except.error ("Contact " ++ name ++ " already has this phone number.") ∧
    add_contact_handled name phone book1 = (book1, false) ∧
    ((∀ pr ∈ book.data, pr.2.phones.Nodup) → ∀ pr ∈ book1.data, pr.2.phones.Nodup) := by
  unfold add_contact at h
  by_cases hvn : validate_name name = false
  · rw [if_pos hvn] at h
    exact absurd h (by simp)
  · rw [if_neg hvn] at h
    by_cases hvp : validate_phone_number phone = false
    · rw [if_pos hvp] at h
      exact absurd h (by simp)
    · rw [if_neg hvp] at h
      cases hfind : book.find name with
      | none =>
        rw [hfind] at h
        simp only [Record.mkNew, Record.add_phone, List.nil_append, ne_eq,
          not_true_eq_false, if_false, Except.ok.injEq] at h
        have hb1 : book1 =
            AddressBook.mk (setKey book.data name (Record.mk name [phone] none)) :=
          h.symm
        subst hb1
        have hf1 : (AddressBook.mk (setKey book.data name
            (Record.mk name [phone] none))).find name =
            some (Record.mk name [phone] none) := by
          unfold AddressBook.find
          rw [setKey_find_self]
          rfl
        have herr : add_contact name phone (AddressBook.mk (setKey book.data name
            (Record.mk name [phone] none))) =
            Except.error ("Contact " ++ name ++ " already has this phone number.") := by
          unfold add_contact
          rw [if_neg hvn, if_neg hvp]
          simp only [hf1]
          have hfp : ((Record.mk name [phone] none).find_phone phone).isSome = true := by
            unfold Record.find_phone
            show (List.find? (fun x => x == phone) ([] ++ [phone])).isSome = true
            exact find_phone_appended [] phone
          rw [if_pos hfp]
        refine ⟨herr, ?_, ?_⟩
        · unfold add_contact_handled
          rw [herr]
        · intro hnd pr hpr
          rcases mem_setKey book.data name (Record.mk name [phone] none) pr hpr with hm | hm
          · exact hnd pr hm
          · rw [hm]
            exact List.nodup_singleton phone
      | some r =>
        simp only [hfind] at h
        by_cases hdup : (r.find_phone phone).isSome
        · rw [if_pos hdup] at h
          exact absurd h (by simp)
        · rw [if_neg hdup] at h
          simp only [Record.add_phone, ne_eq, not_true_eq_false, if_false,
            Except.ok.injEq] at h
          have hb1 : book1 = AddressBook.mk (setKey book.data name
              (Record.mk r.name (r.phones ++ [phone]) r.birthday)) := h.symm
          subst hb1
          have hf1 : (AddressBook.mk (setKey book.data name
              (Record.mk r.name (r.phones ++ [phone]) r.birthday))).find name =
              some (Record.mk r.name (r.phones ++ [phone]) r.birthday) := by
            unfold AddressBook.find
            rw [setKey_find_self]
            rfl
          have herr : add_contact name phone (AddressBook.mk (setKey book.data name
              (Record.mk r.name (r.phones ++ [phone]) r.birthday))) =
              Except.error ("Contact " ++ name ++ " already has this phone number.") := by
            unfold add_contact
            rw [if_neg hvn, if_neg hvp]
            simp only [hf1]
            have hfp : ((Record.mk r.name (r.phones ++ [phone]) r.birthday).find_phone
                phone).isSome = true := by
              unfold Record.find_phone
              exact find_phone_appended r.phones phone
            rw [if_pos hfp]
          refine ⟨herr, ?_, ?_⟩
          · unfold add_contact_handled
            rw [herr]
          · intro hnd pr hpr
            rcases mem_setKey book.data name
              (Record.mk r.name (r.phones ++ [phone]) r.birthday) pr hpr with hm | hm
            · exact hnd pr hm
            · rw [hm]
              show (r.phones ++ [phone]).Nodup
              have hrm : ∃ pr0, pr0 ∈ book.data ∧ pr0.2 = r := by
                unfold AddressBook.find at hfind
                cases hf0 : book.data.find? (fun p => p.1 == name) with
                | none => rw [hf0] at hfind; exact absurd hfind (by simp)
                | some pr0 =>
                  rw [hf0] at hfind
                  exact ⟨pr0, List.mem_of_find?_eq_some hf0, Option.some.inj hfind⟩
              have hrnd : r.phones.Nodup := by
                obtain ⟨pr0, hm0, he0⟩ := hrm
                rw [← he0]
                exact hnd pr0 hm0
              have hnotmem : phone ∉ r.phones := by
                intro hc
                have hfn : List.find? (fun x => x == phone) r.phones = none :=
                  Option.not_isSome_iff_eq_none.mp hdup
                have := List.find?_eq_none.mp hfn phone hc
                simp at this
              rw [List.nodup_append]
              exact ⟨hrnd, List.nodup_singleton phone, by
                intro x hx hc
                simp only [List.mem_singleton] at hc
                exact hnotmem (hc ▸ hx)⟩

/-- Witness for C6 at a concrete book: the first `add_contact` succeeds and
the duplicate is refused, leaving the book unchanged. -/
theorem duplicate_phone_rejected_witness :
    add_contact "anna" "+1234567"
        (AddressBook.mk [("anna", Record.mk "anna" ["+1234567"] none)]) =
      Except.error ("Contact " ++ "anna" ++ " already has this phone number.") ∧
    add_contact_handled "anna" "+1234567"
        (AddressBook.mk [("anna", Record.mk "anna" ["+1234567"] none)]) =
      (AddressBook.mk [("anna", Record.mk "anna" ["+1234567"] none)], false) ∧
    ((∀ pr ∈ (AddressBook.mk ([] : List (String × Record))).data, pr.2.phones.Nodup) →
      ∀ pr ∈ (AddressBook.mk [("anna", Record.mk "anna" ["+1234567"] none)]).data,
        pr.2.phones.Nodup) :=
  duplicate_phone_rejected "anna" "+1234567" (AddressBook.mk [])
    (AddressBook.mk [("anna", Record.mk "anna" ["+1234567"] none)]) (by rfl)

theorem dollarEnd_iff (r : List Char) : dollarEnd r = true ↔ r = [] ∨ r = ['\n'] := by
  cases r with
  | nil => simp [dollarEnd]
  | cons c cs =>
    cases cs with
    | nil => simp [dollarEnd]
    | cons c2 cs2 => simp [dollarEnd]

theorem countLeadingDigits_all (t : List Char) :
    (t.take (countLeadingDigits t)).all isDig = true := by
  induction t with
  | nil => rfl
  | cons c cs ih =>
    unfold countLeadingDigits
    split_ifs with hc
    · rw [List.take_succ_cons, List.all_cons, hc, ih]
      rfl
    · rfl

theorem countLeadingDigits_le_length (t : List Char) :
    countLeadingDigits t ≤ t.length := by
  induction t with
  | nil => exact Nat.le_refl 0
  | cons c cs ih =>
    unfold countLeadingDigits
    split_ifs
    · simpa using ih
    · exact Nat.zero_le _

theorem countLeadingDigits_of_all (ds r : List Char) (hall : ds.all isDig = true)
    (hr : r = [] ∨ ∃ c cs, r = c :: cs ∧ isDig c = false) :
    countLeadingDigits (ds ++ r) = ds.length := by
  induction ds with
  | nil =>
    rcases hr with hr | ⟨c, cs, hr, hc⟩
    · rw [hr]
      rfl
    · rw [List.nil_append, hr]
      unfold countLeadingDigits
      rw [if_neg (by simp [hc])]
      rfl
  | cons d ds ih =>
    rw [List.all_cons, Bool.and_eq_true] at hall
    rw [List.cons_append]
    unfold countLeadingDigits
    rw [if_pos hall.1, ih hall.2]
    rfl

theorem validate_phone_lenient (s : String) :
    validate_phone_number s = true ↔ phoneLenientSpec s := by
  constructor
  · intro hv
    cases hs : s.data with
    | nil =>
      unfold validate_phone_number at hv
      rw [hs] at hv
      exact absurd hv (by simp)
    | cons c t =>
      unfold validate_phone_number at hv
      rw [hs] at hv
      dsimp only [] at hv
      by_cases hc : c = '+'
      · rw [if_pos hc] at hv
        simp only [Bool.and_eq_true, decide_eq_true_eq] at hv
        obtain ⟨⟨h7, h15⟩, hdollar⟩ := hv
        have hlen : (t.take (countLeadingDigits t)).length = countLeadingDigits t := by
          rw [List.length_take]
          exact Nat.min_eq_left (countLeadingDigits_le_length t)
        rcases (dollarEnd_iff _).mp hdollar with hend | hend
        · refine ⟨t.take (countLeadingDigits t), [], Or.inl ⟨?_, ?_, ?_⟩,
            countLeadingDigits_all t, Or.inl rfl⟩
          · rw [hs, hc, List.append_nil]
            have ht : t = t.take (countLeadingDigits t) := by
              conv_lhs => rw [← List.take_append_drop (countLeadingDigits t) t]
              rw [hend, List.append_nil]
            rw [← ht]
          · rw [hlen]
            exact h7
          · rw [hlen]
            exact h15
        · refine ⟨t.take (countLeadingDigits t), ['\n'], Or.inl ⟨?_, ?_, ?_⟩,
            countLeadingDigits_all t, Or.inr rfl⟩
          · rw [hs, hc]
            have ht : t = t.take (countLeadingDigits t) ++ ['\n'] := by
              conv_lhs => rw [← List.take_append_drop (countLeadingDigits t) t]
              rw [hend]
            rw [← ht]
          · rw [hlen]
            exact h7
          · rw [hlen]
            exact h15
      · by_cases hc0 : c = '0'
        · rw [if_neg hc, if_pos hc0] at hv
          simp only [Bool.and_eq_true, decide_eq_true_eq] at hv
          obtain ⟨⟨h6, h14⟩, hdollar⟩ := hv
          have hlen : (t.take (countLeadingDigits t)).length = countLeadingDigits t := by
            rw [List.length_take]
            exact Nat.min_eq_left (countLeadingDigits_le_length t)
          rcases (dollarEnd_iff _).mp hdollar with hend | hend
          · refine ⟨t.take (countLeadingDigits t), [], Or.inr ⟨?_, ?_, ?_⟩,
              countLeadingDigits_all t, Or.inl rfl⟩
            · rw [hs, hc0, List.append_nil]
              have ht : t = t.take (countLeadingDigits t) := by
                conv_lhs => rw [← List.take_append_drop (countLeadingDigits t) t]
                rw [hend, List.append_nil]
              rw [← ht]
            · rw [hlen]
              exact h6
            · rw [hlen]
              exact h14
          · refine ⟨t.take (countLeadingDigits t), ['\n'], Or.inr ⟨?_, ?_, ?_⟩,
              countLeadingDigits_all t, Or.inr rfl⟩
            · rw [hs, hc0]
              have ht : t = t.take (countLeadingDigits t) ++ ['\n'] := by
                conv_lhs => rw [← List.take_append_drop (countLeadingDigits t) t]
                rw [hend]
              rw [← ht]
            · rw [hlen]
              exact h6
            · rw [hlen]
              exact h14
        · rw [if_neg hc, if_neg hc0] at hv
          exact absurd hv (by simp)
  · rintro ⟨ds, rest, hcase, hall, hrest⟩
    have hrend : rest = [] ∨ ∃ c cs, rest = c :: cs ∧ isDig c = false := by
      rcases hrest with h | h
      · exact Or.inl h
      · exact Or.inr ⟨'\n', [], h, by decide⟩
    have hn : countLeadingDigits (ds ++ rest) = ds.length :=
      countLeadingDigits_of_all ds rest hall hrend
    have hde : dollarEnd rest = true := (dollarEnd_iff rest).mpr hrest
    rcases hcase with ⟨hs, h1, h2⟩ | ⟨hs, h1, h2⟩
    · unfold validate_phone_number
      rw [hs]
      dsimp only []
      rw [if_pos rfl, hn, List.drop_left, hde]
      simp [h1, h2]
    · unfold validate_phone_number
      rw [hs]
      dsimp only []
      rw [if_neg (by decide), if_pos rfl, hn, List.drop_left, hde]
      simp [h1, h2]

/-- C7 counterexample: the Python pattern is matched with `re.match`, whose
final `$` also matches just before one trailing newline, so the string
"+1234567" followed by a newline is accepted even though it does not match
the anchored pattern with nothing after. -/
theorem phone_trailing_newline_counterexample :
    validate_phone_number "+1234567\n" = true ∧
    phoneAnchoredStrict "+1234567\n" = false :=
  ⟨by decide, by decide⟩

/-- C7 amended: `validate_phone_number s` is true iff `s` is `+` followed
by 7-15 Unicode decimal digits or `0` followed by 6-14 such digits,
followed by nothing or by one final newline — `\d` without `re.ASCII`
matches every `Nd` character, and the `$` of `re.match` accepts one
trailing newline; in particular "+123456" and "01234" are rejected,
"+1234567" and "0123456" are accepted, and so is "+123456" extended by
the Arabic-Indic digit seven. -/
theorem validate_phone_number_characterization :
    (∀ s, validate_phone_number s = true ↔ phoneLenientSpec s) ∧
    validate_phone_number "+123456" = false ∧
    validate_phone_number "01234" = false ∧
    validate_phone_number "+1234567" = true ∧
    validate_phone_number "0123456" = true ∧
    validate_phone_number "+123456٧" = true :=
  ⟨validate_phone_lenient, by decide, by decide, by decide, by decide, by decide⟩

theorem splitOnDot_ne_nil (cs : List Char) : splitOnDot cs ≠ [] := by
  induction cs with
  | nil => simp [splitOnDot]
  | cons c cs ih =>
    unfold splitOnDot
    split_ifs
    · simp
    · cases h : splitOnDot cs with
      | nil => simp
      | cons p ps => simp

theorem joinDots_cons_head (c : Char) (p : List Char) (ps : List (List Char)) :
    joinDots ((c :: p) :: ps) = c :: joinDots (p :: ps) := by
  cases ps <;> rfl

theorem splitOnDot_join (cs : List Char) : joinDots (splitOnDot cs) = cs := by
  induction cs with
  | nil => rfl
  | cons c cs ih =>
    unfold splitOnDot
    split_ifs with hc
    · cases h : splitOnDot cs with
      | nil => exact absurd h (splitOnDot_ne_nil cs)
      | cons p ps =>
        rw [h] at ih
        show joinDots ([] :: p :: ps) = c :: cs
        show '.' :: joinDots (p :: ps) = c :: cs
        rw [ih, hc]
    · cases h : splitOnDot cs with
      | nil => exact absurd h (splitOnDot_ne_nil cs)
      | cons p ps =>
        rw [h] at ih
        show joinDots ((c :: p) :: ps) = c :: cs
        rw [joinDots_cons_head, ih]

theorem splitOnDot_dotfree (c : List Char) (h : ∀ x ∈ c, x ≠ '.') :
    splitOnDot c = [c] := by
  induction c with
  | nil => rfl
  | cons x xs ih =>
    unfold splitOnDot
    rw [if_neg (h x (List.mem_cons_self x xs))]
    rw [ih (fun y hy => h y (List.mem_cons_of_mem x hy))]

theorem splitOnDot_append (a r : List Char) (h : ∀ x ∈ a, x ≠ '.') :
    splitOnDot (a ++ '.' :: r) = a :: splitOnDot r := by
  induction a with
  | nil =>
    rw [List.nil_append]
    show (if ('.' : Char) = '.' then [] :: splitOnDot r
        else match splitOnDot r with
          | [] => [['.']]
          | p :: ps => ('.' :: p) :: ps) = [] :: splitOnDot r
    rw [if_pos rfl]
  | cons x xs ih =>
    rw [List.cons_append]
    show (if x = '.' then [] :: splitOnDot (xs ++ '.' :: r)
        else match splitOnDot (xs ++ '.' :: r) with
          | [] => [[x]]
          | p :: ps => (x :: p) :: ps) = (x :: xs) :: splitOnDot r
    rw [if_neg (h x (List.mem_cons_self x xs))]
    rw [ih (fun y hy => h y (List.mem_cons_of_mem x hy))]

theorem all_digits_dotfree (l : List Char) (h : l.all isDig = true) :
    ∀ x ∈ l, x ≠ '.' := by
  intro x hx hdot
  have hd := List.all_eq_true.mp h x hx
  rw [hdot] at hd
  exact absurd hd (by decide)

theorem ascii_isDig (c : Char) (h1 : 48 ≤ c.toNat) (h2 : c.toNat ≤ 57) :
    isDig c = true := by
  unfold isDig ndStarts
  rw [List.any_cons, Bool.or_eq_true]
  left
  simp only [Bool.and_eq_true, decide_eq_true_eq]
  omega

theorem dayRe_digits (ds : List Char) (h : dayRe ds = true) : ds.all isDig = true := by
  cases ds with
  | nil => exact absurd h (by simp [dayRe])
  | cons c1 rest =>
    cases rest with
    | nil =>
      simp only [dayRe, Bool.and_eq_true, decide_eq_true_eq] at h
      simp only [List.all_cons, List.all_nil, Bool.and_eq_true, and_true]
      exact ascii_isDig c1 (by omega) h.2
    | cons c2 rest2 =>
      cases rest2 with
      | nil =>
        simp only [dayRe, Bool.or_eq_true, Bool.and_eq_true, beq_iff_eq,
          decide_eq_true_eq] at h
        simp only [List.all_cons, List.all_nil, Bool.and_eq_true, and_true]
        rcases h with (⟨hc1, hc2⟩ | ⟨hc1, hc2⟩) | ⟨⟨hc1, hge⟩, hle⟩
        · rcases hc2 with hc2 | hc2 <;> subst hc1 <;> subst hc2 <;> decide
        · rcases hc1 with hc1 | hc1 <;> subst hc1 <;> exact ⟨by decide, hc2⟩
        · subst hc1
          exact ⟨by decide, ascii_isDig c2 (by omega) hle⟩
      | cons c3 rest3 => exact absurd h (by simp [dayRe])

theorem monthRe_digits (ms : List Char) (h : monthRe ms = true) : ms.all isDig = true := by
  cases ms with
  | nil => exact absurd h (by simp [monthRe])
  | cons c1 rest =>
    cases rest with
    | nil =>
      simp only [monthRe, Bool.and_eq_true, decide_eq_true_eq] at h
      simp only [List.all_cons, List.all_nil, Bool.and_eq_true, and_true]
      exact ascii_isDig c1 (by omega) h.2
    | cons c2 rest2 =>
      cases rest2 with
      | nil =>
        simp only [monthRe, Bool.or_eq_true, Bool.and_eq_true, beq_iff_eq,
          decide_eq_true_eq] at h
        simp only [List.all_cons, List.all_nil, Bool.and_eq_true, and_true]
        rcases h with ⟨hc1, hc2⟩ | ⟨⟨hc1, hge⟩, hle⟩
        · rcases hc2 with (hc2 | hc2) | hc2 <;> subst hc1 <;> subst hc2 <;> decide
        · subst hc1
          exact ⟨by decide, ascii_isDig c2 (by omega) hle⟩
      | cons c3 rest3 => exact absurd h (by simp [monthRe])

theorem yearRe_digits (ys : List Char) (h : yearRe ys = true) : ys.all isDig = true := by
  unfold yearRe at h
  rw [Bool.and_eq_true] at h
  exact h.2

theorem validate_birthday_iff (s : String) :
    validate_birthday s = true ↔
      ∃ ds ms ys, s.data = ds ++ '.' :: (ms ++ '.' :: ys) ∧
        dayRe ds = true ∧ monthRe ms = true ∧ yearRe ys = true ∧
        (Date.mk (natVal ys) (natVal ms) (natVal ds)).Valid := by
  unfold validate_birthday parseBirthdayDate
  constructor
  · intro hv
    have hjoin := splitOnDot_join s.data
    cases hsp : splitOnDot s.data with
    | nil => exact absurd hsp (splitOnDot_ne_nil s.data)
    | cons p ps =>
      rw [hsp] at hv hjoin
      cases ps with
      | nil => exact absurd hv (by simp)
      | cons q ps2 =>
        cases ps2 with
        | nil => exact absurd hv (by simp)
        | cons r ps3 =>
          cases ps3 with
          | nil =>
            dsimp only [] at hv
            split_ifs at hv with hre hvalid
            · rw [Bool.and_eq_true, Bool.and_eq_true] at hre
              refine ⟨p, q, r, ?_, hre.1.1, hre.1.2, hre.2, hvalid⟩
              rw [← hjoin]
              rfl
            · exact absurd hv (by simp)
            · exact absurd hv (by simp)
          | cons r2 ps4 => exact absurd hv (by simp)
  · rintro ⟨ds, ms, ys, hs, hd, hm, hy, hvalid⟩
    have hsplit : splitOnDot s.data = [ds, ms, ys] := by
      rw [hs]
      rw [splitOnDot_append ds _ (all_digits_dotfree ds (dayRe_digits ds hd))]
      rw [splitOnDot_append ms _ (all_digits_dotfree ms (monthRe_digits ms hm))]
      rw [splitOnDot_dotfree ys (all_digits_dotfree ys (yearRe_digits ys hy))]
    rw [hsplit]
    dsimp only []
    rw [if_pos (by rw [hd, hm, hy]; rfl), if_pos hvalid]
    rfl

/-- C8: `validate_birthday s` is true iff `s` parses as an existing calendar
date under the `strptime` pattern `"%d.%m.%Y"`: a day group, a month group
and a four-digit year group separated by dots, forming a valid calendar
date — rejecting non-numeric parts, out-of-range day or month values, and
non-existent dates such as 31.04 of any year or 29.02 of a non-leap year.
The `\d` positions of the groups admit any Unicode decimal digit, which
`int()` converts by digit value: "29.02.202" extended by the Arabic-Indic
digit four parses as 29.02.2024. -/
theorem validate_birthday_characterization :
    (∀ s, validate_birthday s = true ↔
      ∃ ds ms ys, s.data = ds ++ '.' :: (ms ++ '.' :: ys) ∧
        dayRe ds = true ∧ monthRe ms = true ∧ yearRe ys = true ∧
        (Date.mk (natVal ys) (natVal ms) (natVal ds)).Valid) ∧
    validate_birthday "31.04.2021" = false ∧
    validate_birthday "29.02.2023" = false ∧
    validate_birthday "29.02.2024" = true ∧
    validate_birthday "25.12.1990" = true ∧
    validate_birthday "aa.bb.cccc" = false ∧
    validate_birthday "99.99.2020" = false ∧
    validate_birthday "29.02.202٤" = true :=
  ⟨validate_birthday_iff, by decide, by decide, by decide, by decide, by decide,
    by decide, by decide⟩

/-- Witness for C3: the window characterization instantiated at a concrete
book, entry and date. -/
theorem upcoming_birthdays_window_witness :
    ("anna", Date.mk 2023 6 14) ∈
      (AddressBook.mk [("anna", Record.mk "anna" [] (some (Date.mk 1990 6 14))),
        ("bob", Record.mk "bob" [] (some (Date.mk 1985 6 14)))]).upcoming_birthdays
        (Date.mk 2023 6 10) 7 ↔
      ∃ pr, pr ∈ (AddressBook.mk [("anna", Record.mk "anna" [] (some (Date.mk 1990 6 14))),
          ("bob", Record.mk "bob" [] (some (Date.mk 1985 6 14)))]).data ∧
        pr.2.name = "anna" ∧
        ∃ dl, pr.2.days_to_birthday (Date.mk 2023 6 10) = some dl ∧ 0 ≤ dl ∧ dl ≤ 7 ∧
          Date.mk 2023 6 14 = addDays (Date.mk 2023 6 10) dl.toNat :=
  (upcoming_birthdays_window
    (AddressBook.mk [("anna", Record.mk "anna" [] (some (Date.mk 1990 6 14))),
      ("bob", Record.mk "bob" [] (some (Date.mk 1985 6 14)))])
    (Date.mk 2023 6 10) 7).1 "anna" (Date.mk 2023 6 14)

/-- Witness for C4: stability instantiated at the tied date 14.06.2023. -/
theorem upcoming_birthdays_sorted_stable_witness :
    ((AddressBook.mk [("anna", Record.mk "anna" [] (some (Date.mk 1990 6 14))),
        ("bob", Record.mk "bob" [] (some (Date.mk 1985 6 14)))]).upcoming_birthdays
        (Date.mk 2023 6 10) 7).filter (fun p => decide (p.2 = Date.mk 2023 6 14)) =
      ((AddressBook.mk [("anna", Record.mk "anna" [] (some (Date.mk 1990 6 14))),
        ("bob", Record.mk "bob" [] (some (Date.mk 1985 6 14)))]).upcomingPre
        (Date.mk 2023 6 10) 7).filter (fun p => decide (p.2 = Date.mk 2023 6 14)) :=
  (upcoming_birthdays_sorted_stable
    (AddressBook.mk [("anna", Record.mk "anna" [] (some (Date.mk 1990 6 14))),
      ("bob", Record.mk "bob" [] (some (Date.mk 1985 6 14)))])
    (Date.mk 2023 6 10) 7).2.1 (Date.mk 2023 6 14)

/-- Witness for the amended C7 at a concrete accepted string. -/
theorem validate_phone_number_characterization_witness :
    validate_phone_number "+1234567" = true ↔ phoneLenientSpec "+1234567" :=
  validate_phone_number_characterization.1 "+1234567"

/-- Witness for C8 at a concrete leap-day string. -/
theorem validate_birthday_characterization_witness :
    validate_birthday "29.02.2024" = true ↔
      ∃ ds ms ys, ("29.02.2024" : String).data = ds ++ '.' :: (ms ++ '.' :: ys) ∧
        dayRe ds = true ∧ monthRe ms = true ∧ yearRe ys = true ∧
        (Date.mk (natVal ys) (natVal ms) (natVal ds)).Valid :=
  validate_birthday_characterization.1 "29.02.2024"

end ContactBook
